import Mathlib

/-!
Verification of `scripts/generate_patch_for_all_of_substrate.py`.

The script is a single linear pipeline:

  workspace = toml.load('../substrate/Cargo.toml')
  paths = workspace['workspace']['members']
  print('[patch."https://github.com/compound-finance/substrate.git"]')
  for path in paths:
      candidate_path = os.path.join('../substrate', path)
      candidate_cargo_file = os.path.join(candidate_path, 'Cargo.toml')
      if os.path.exists(candidate_cargo_file):
          parsed = toml.load(candidate_cargo_file)
          package_name = parsed['package']['name']
          print(f'{package_name} = {{ path = "{candidate_path}" }}')

We embed the filesystem as explicit data: the parse outcome of the root
workspace manifest, and a map from file-path strings to the parse outcome
of a member manifest (`none` = the file does not exist).  The run of the
script is a pure function from that state to the list of printed lines
together with the fatal error, if any, that terminated it; lines that
appear in the list were printed before the error was raised, matching the
line-by-line `print` calls of the source.
-/

namespace PatchGen

/-- Parse outcome of a member `Cargo.toml` that exists on disk:
`toml.load` raises (malformed), or `parsed['package']['name']` raises a
`KeyError` (noName), or the name is extracted (named). -/
inductive MemberManifest
  | malformed
  | noName
  | named (name : String)
  deriving DecidableEq

/-- Outcome of loading the root workspace manifest `../substrate/Cargo.toml`:
the file is missing or unreadable (`toml.load` raises), the document fails
to parse, the document lacks `workspace.members` (`KeyError`), or the member
path list is obtained. -/
inductive RootManifest
  | missing
  | malformed
  | noMembers
  | members (paths : List String)
  deriving DecidableEq

/-- The filesystem state the script reads: the root manifest outcome and,
for every file-path string, the outcome of the member manifest there
(`none` = `os.path.exists` is false). -/
structure FS where
  root : RootManifest
  member : String → Option MemberManifest

/-- The uncaught Python exception that terminates a run. -/
inductive RunError
  | rootMissing
  | rootMalformed
  | rootNoMembers
  | memberError (path : String)
  deriving DecidableEq

/-- Python `s.startswith(pre)`, computed on the character list of the
string so that it evaluates by kernel reduction. -/
def strStartsWith (s pre : String) : Bool := pre.data.isPrefixOf s.data

/-- Python `s.endswith(suf)`, computed on the character list of the
string. -/
def strEndsWith (s suf : String) : Bool := suf.data.isSuffixOf s.data

/-- Python `not s` on a string: emptiness. -/
def strIsEmpty (s : String) : Bool := s.data.isEmpty

/-- `os.path.join(a, b)` on POSIX for two components: an absolute second
component discards the first; otherwise a separator is inserted unless the
first component is empty or already ends with one.  No normalization of
`..` or `.` segments is performed. -/
def osPathJoin (a b : String) : String :=
  if strStartsWith b "/" then b
  else if strIsEmpty a || strEndsWith a "/" then a ++ b
  else a ++ "/" ++ b

/-- The hard-coded sibling checkout directory. -/
def substrateRoot : String := "../substrate"

/-- `candidate_path = os.path.join('../substrate', path)`. -/
def candidatePath (p : String) : String := osPathJoin substrateRoot p

/-- `candidate_cargo_file = os.path.join(candidate_path, 'Cargo.toml')`. -/
def candidateCargoFile (p : String) : String :=
  osPathJoin (candidatePath p) "Cargo.toml"

/-- The fixed header line printed before the member loop. -/
def headerLine : String :=
  "[patch.\"https://github.com/compound-finance/substrate.git\"]"

/-- The f-string `f'{package_name} = {{ path = "{candidate_path}" }}'`. -/
def entryLine (name path : String) : String :=
  name ++ " = \x7b path = \"" ++ path ++ "\" \x7d"

/-- The member loop: each path is joined, the candidate manifest is checked
for existence (absent members are skipped silently), an existing manifest is
parsed and its `package.name` extracted (failure raises, aborting the loop),
and the entry line is printed.  Returns the printed lines in order and the
error, if any, that aborted the loop. -/
def processMembers (fs : String → Option MemberManifest) :
    List String → List String × Option RunError
  | [] => ([], none)
  | p :: rest =>
    match fs (candidateCargoFile p) with
    | none => processMembers fs rest
    | some MemberManifest.malformed => ([], some (RunError.memberError p))
    | some MemberManifest.noName => ([], some (RunError.memberError p))
    | some (MemberManifest.named n) =>
      let out := processMembers fs rest
      (entryLine n (candidatePath p) :: out.1, out.2)

/-- One run of the script: load the root manifest (failure raises before
anything is printed), print the header, then process the members.  The
first component is the sequence of lines printed to standard output before
the run ended; the second is the uncaught exception, if any. -/
def resolve (fs : FS) : List String × Option RunError :=
  match fs.root with
  | RootManifest.missing => ([], some RunError.rootMissing)
  | RootManifest.malformed => ([], some RunError.rootMalformed)
  | RootManifest.noMembers => ([], some RunError.rootNoMembers)
  | RootManifest.members paths =>
    let out := processMembers fs.member paths
    (headerLine :: out.1, out.2)

/-- Process exit status: 0 on a clean run, 1 when an uncaught exception
terminates the interpreter. -/
def exitCode (fs : FS) : Nat :=
  match (resolve fs).2 with
  | none => 0
  | some _ => 1

/-- The bytes written to standard output: every printed line followed by a
newline, in print order. -/
def outputText (fs : FS) : String :=
  String.join ((resolve fs).1.map (fun l => l ++ "\n"))

/-- The entry line a member path contributes on a successful run, if any:
`none` when its candidate manifest does not exist. -/
def entryOf (fs : String → Option MemberManifest) (p : String) :
    Option String :=
  match fs (candidateCargoFile p) with
  | some (MemberManifest.named n) => some (entryLine n (candidatePath p))
  | _ => none

/-- A member path is harmless when its candidate manifest is absent or
parses with a `package.name`: processing it cannot raise. -/
def goodAt (fs : String → Option MemberManifest) (p : String) : Bool :=
  match fs (candidateCargoFile p) with
  | none => true
  | some (MemberManifest.named _) => true
  | some MemberManifest.malformed => false
  | some MemberManifest.noName => false

/-! ## Helper lemmas about the member loop -/

/-- When every member in the list is harmless, the loop completes without
error and prints exactly the entry of every member whose manifest exists,
in list order. -/
lemma processMembers_eq_filterMap (fs : String → Option MemberManifest) :
    ∀ paths : List String, (∀ p ∈ paths, goodAt fs p = true) →
      processMembers fs paths = (paths.filterMap (entryOf fs), none)
  | [], _ => rfl
  | p :: rest, h => by
    have hrest := processMembers_eq_filterMap fs rest
      (fun q hq => h q (List.mem_cons_of_mem _ hq))
    have hp := h p (List.mem_cons_self p rest)
    cases hfs : fs (candidateCargoFile p) with
    | none =>
      simp [processMembers, entryOf, hfs, hrest]
    | some m =>
      cases m with
      | malformed => simp [goodAt, hfs] at hp
      | noName => simp [goodAt, hfs] at hp
      | named n =>
        simp [processMembers, entryOf, hfs, hrest]

/-- The loop finishes without raising exactly when every member in the list
is harmless. -/
lemma processMembers_snd_none_iff (fs : String → Option MemberManifest) :
    ∀ paths : List String,
      (processMembers fs paths).2 = none ↔ ∀ p ∈ paths, goodAt fs p = true
  | [] => by simp [processMembers]
  | p :: rest => by
    have ih := processMembers_snd_none_iff fs rest
    cases hfs : fs (candidateCargoFile p) with
    | none =>
      simp [processMembers, hfs, ih, goodAt]
    | some m =>
      cases m with
      | malformed => simp [processMembers, hfs, goodAt]
      | noName => simp [processMembers, hfs, goodAt]
      | named n => simp [processMembers, hfs, ih, goodAt]

/-- Any error raised by the member loop is a member error. -/
lemma processMembers_error_shape (fs : String → Option MemberManifest) :
    ∀ paths : List String, ∀ e : RunError,
      (processMembers fs paths).2 = some e → ∃ p, e = RunError.memberError p
  | [], e => by simp [processMembers]
  | p :: rest, e => by
    have ih := processMembers_error_shape fs rest e
    cases hfs : fs (candidateCargoFile p) with
    | none => simpa [processMembers, hfs] using ih
    | some m =>
      cases m with
      | malformed =>
        intro he
        exact ⟨p, by simpa [processMembers, hfs] using he.symm⟩
      | noName =>
        intro he
        exact ⟨p, by simpa [processMembers, hfs] using he.symm⟩
      | named n => simpa [processMembers, hfs] using ih

/-- When every member before `k` is harmless and `k` raises, the loop
prints exactly the entries of the members before `k` and terminates with
the member error at `k`. -/
lemma processMembers_fail_at (fs : String → Option MemberManifest)
    (k : String) (post : List String) (hk : goodAt fs k = false) :
    ∀ pre : List String, (∀ p ∈ pre, goodAt fs p = true) →
      processMembers fs (pre ++ k :: post) =
        (pre.filterMap (entryOf fs), some (RunError.memberError k))
  | [], _ => by
    cases hfs : fs (candidateCargoFile k) with
    | none => simp [goodAt, hfs] at hk
    | some m =>
      cases m with
      | malformed => simp [processMembers, hfs]
      | noName => simp [processMembers, hfs]
      | named n => simp [goodAt, hfs] at hk
  | p :: pre, h => by
    have ih := processMembers_fail_at fs k post hk pre
      (fun q hq => h q (List.mem_cons_of_mem _ hq))
    have hp := h p (List.mem_cons_self p pre)
    cases hfs : fs (candidateCargoFile p) with
    | none => simp [processMembers, entryOf, hfs, ih]
    | some m =>
      cases m with
      | malformed => simp [goodAt, hfs] at hp
      | noName => simp [goodAt, hfs] at hp
      | named n => simp [processMembers, entryOf, hfs, ih]

/-- A member whose candidate manifest does not exist contributes nothing:
the loop behaves as if the member were not declared at all. -/
lemma processMembers_skip (fs : String → Option MemberManifest)
    (x : String) (post : List String)
    (hx : fs (candidateCargoFile x) = none) :
    ∀ pre : List String,
      processMembers fs (pre ++ x :: post) = processMembers fs (pre ++ post)
  | [] => by simp [processMembers, hx]
  | p :: pre => by
    have ih := processMembers_skip fs x post hx pre
    cases hfs : fs (candidateCargoFile p) with
    | none => simp [processMembers, hfs, ih]
    | some m =>
      cases m with
      | malformed => simp [processMembers, hfs]
      | noName => simp [processMembers, hfs]
      | named n => simp [processMembers, hfs, ih]

/-- The length of a `filterMap` counts the elements on which the function
is defined. -/
lemma length_filterMap_eq_countP {α β : Type} (f : α → Option β) :
    ∀ l : List α, (l.filterMap f).length = l.countP (fun a => (f a).isSome)
  | [] => rfl
  | a :: l => by
    have ih := length_filterMap_eq_countP f l
    cases hf : f a with
    | none => simp [List.filterMap_cons, List.countP_cons, hf, ih]
    | some b => simp [List.filterMap_cons, List.countP_cons, hf, ih]

/-- `os.path.join` keeps the second component as a literal suffix of the
result in every branch. -/
lemma osPathJoin_suffix (a b : String) : ∃ s, osPathJoin a b = s ++ b := by
  unfold osPathJoin
  by_cases h1 : strStartsWith b "/"
  · exact ⟨"", by simp [h1]⟩
  · by_cases h2 : strIsEmpty a || strEndsWith a "/"
    · exact ⟨a, by simp [h1, h2]⟩
    · exact ⟨a ++ "/", by simp [h1, h2, String.append_assoc]⟩

/-- For a harmless member, the entry is present exactly when the candidate
manifest exists. -/
lemma entryOf_isSome (fs : String → Option MemberManifest) (p : String)
    (hp : goodAt fs p = true) :
    (entryOf fs p).isSome = (fs (candidateCargoFile p)).isSome := by
  cases hfs : fs (candidateCargoFile p) with
  | none => simp [entryOf, hfs]
  | some m =>
    cases m with
    | malformed => simp [goodAt, hfs] at hp
    | noName => simp [goodAt, hfs] at hp
    | named n => simp [entryOf, hfs]

/-! ## Concrete filesystem fixtures used by witnesses and counterexamples -/

/-- A workspace with one member whose manifest exists but lacks
`package.name`. -/
def fsNoName : FS where
  root := RootManifest.members ["frame/system"]
  member := fun s =>
    if s = "../substrate/frame/system/Cargo.toml" then
      some MemberManifest.noName
    else none

/-- A workspace with two members that declare the same package name. -/
def fsDup : FS where
  root := RootManifest.members ["a", "b"]
  member := fun s =>
    if s = "../substrate/a/Cargo.toml" then some (MemberManifest.named "foo")
    else if s = "../substrate/b/Cargo.toml" then
      some (MemberManifest.named "foo")
    else none

/-- A workspace with a middle member whose candidate manifest is absent. -/
def fsSkip : FS where
  root := RootManifest.members ["a", "gone", "b"]
  member := fun s =>
    if s = "../substrate/a/Cargo.toml" then some (MemberManifest.named "foo")
    else if s = "../substrate/b/Cargo.toml" then
      some (MemberManifest.named "bar")
    else none

/-- A workspace with one member whose manifest exists but fails to parse. -/
def fsMalformed : FS where
  root := RootManifest.members ["bad"]
  member := fun s =>
    if s = "../substrate/bad/Cargo.toml" then some MemberManifest.malformed
    else none

/-- A workspace with no members at all. -/
def fsEmpty : FS where
  root := RootManifest.members []
  member := fun _ => none

/-- A filesystem where the root workspace manifest is missing. -/
def fsRootMissing : FS where
  root := RootManifest.missing
  member := fun _ => none

/-- A workspace whose single member path climbs out of the checkout with
`..` segments. -/
def fsDotDot : FS where
  root := RootManifest.members ["../escape"]
  member := fun s =>
    if s = "../substrate/../escape/Cargo.toml" then
      some (MemberManifest.named "esc")
    else none

/-- A workspace where a valid member precedes a member whose manifest lacks
`package.name`, which precedes another valid member. -/
def fsPrefix : FS where
  root := RootManifest.members ["a", "bad", "c"]
  member := fun s =>
    if s = "../substrate/a/Cargo.toml" then some (MemberManifest.named "foo")
    else if s = "../substrate/bad/Cargo.toml" then some MemberManifest.noName
    else if s = "../substrate/c/Cargo.toml" then
      some (MemberManifest.named "baz")
    else none

/-! ## Claims -/

/-- Claim C1, as stated, is false: with one member whose manifest exists
but lacks `package.name`, a fatal condition occurs, yet the header line was
already printed, so the consumer sees a partial patch block instead of no
output at all. -/
theorem claim_C1_counterexample :
    (resolve fsNoName).2 = some (RunError.memberError "frame/system") ∧
      (resolve fsNoName).1 = [headerLine] ∧ (resolve fsNoName).1 ≠ [] := by
  refine ⟨by decide, by decide, by decide⟩

/-- Claim C1 (amended): a fatal condition at the root manifest aborts the
run before any output, but a fatal condition at a member manifest is raised
only after the header line (and the entries of earlier valid members) have
already been printed: the consumer can see a partial patch block whose
first line is the header. -/
theorem claim_C1 (fs : FS) (e : RunError) (h : (resolve fs).2 = some e) :
    ((e = RunError.rootMissing ∨ e = RunError.rootMalformed ∨
        e = RunError.rootNoMembers) → (resolve fs).1 = []) ∧
      (∀ p, e = RunError.memberError p →
        ∃ rest, (resolve fs).1 = headerLine :: rest) := by
  cases hroot : fs.root with
  | missing =>
    have he : e = RunError.rootMissing := by
      have := h
      simp [resolve, hroot] at this
      exact this.symm
    subst he
    exact ⟨fun _ => by simp [resolve, hroot], fun p hp => by cases hp⟩
  | malformed =>
    have he : e = RunError.rootMalformed := by
      have := h
      simp [resolve, hroot] at this
      exact this.symm
    subst he
    exact ⟨fun _ => by simp [resolve, hroot], fun p hp => by cases hp⟩
  | noMembers =>
    have he : e = RunError.rootNoMembers := by
      have := h
      simp [resolve, hroot] at this
      exact this.symm
    subst he
    exact ⟨fun _ => by simp [resolve, hroot], fun p hp => by cases hp⟩
  | members paths =>
    have h2 : (processMembers fs.member paths).2 = some e := by
      simpa [resolve, hroot] using h
    obtain ⟨p0, hp0⟩ := processMembers_error_shape fs.member paths e h2
    subst hp0
    refine ⟨fun hcon => ?_, fun p _ => ?_⟩
    · rcases hcon with hc | hc | hc <;> cases hc
    · exact ⟨(processMembers fs.member paths).1, by simp [resolve, hroot]⟩

/-- Witness for the amended C1: on the no-name fixture the emitted output
starts with the header line. -/
theorem claim_C1_witness :
    ∃ rest, (resolve fsNoName).1 = headerLine :: rest :=
  (claim_C1 fsNoName (RunError.memberError "frame/system") (by decide)).2
    "frame/system" rfl

/-- Claim C2: on a well-formed root manifest whose existing member
manifests are all well-formed, the number of emitted entry lines equals the
number of member paths whose candidate manifest exists on disk, which is at
most the number of member paths. -/
theorem claim_C2 (fs : FS) (paths : List String)
    (hroot : fs.root = RootManifest.members paths)
    (h : ∀ p ∈ paths, goodAt fs.member p = true) :
    (processMembers fs.member paths).1.length =
        paths.countP (fun p => (fs.member (candidateCargoFile p)).isSome) ∧
      (resolve fs).1.length =
        1 + paths.countP
          (fun p => (fs.member (candidateCargoFile p)).isSome) ∧
      paths.countP (fun p => (fs.member (candidateCargoFile p)).isSome) ≤
        paths.length := by
  have hpm := processMembers_eq_filterMap fs.member paths h
  have hlen := length_filterMap_eq_countP (entryOf fs.member) paths
  have hcount : paths.countP (fun p => (entryOf fs.member p).isSome) =
      paths.countP (fun p => (fs.member (candidateCargoFile p)).isSome) := by
    refine List.countP_congr (fun p hp => ?_)
    rw [entryOf_isSome fs.member p (h p hp)]
  refine ⟨?_, ?_, List.countP_le_length _⟩
  · rw [hpm]
    simpa [hcount] using hlen
  · rw [resolve.eq_def, hroot]
    simp only [hpm, List.length_cons]
    rw [hlen, hcount]
    omega

/-- Witness for C2 on a workspace where one of three members lacks a
manifest on disk: two entry lines are emitted. -/
theorem claim_C2_witness :
    (processMembers fsSkip.member ["a", "gone", "b"]).1.length =
      List.countP
        (fun p => (fsSkip.member (candidateCargoFile p)).isSome)
        ["a", "gone", "b"] ∧
    List.countP (fun p => (fsSkip.member (candidateCargoFile p)).isSome)
        ["a", "gone", "b"] = 2 :=
  ⟨(claim_C2 fsSkip ["a", "gone", "b"] rfl (by decide)).1, by decide⟩

/-- Claim C3: on a successful run the entries are exactly the image of the
declared member list under the per-member entry function, in declaration
order, with no sorting and no deduplication. -/
theorem claim_C3 (fs : FS) (paths : List String)
    (hroot : fs.root = RootManifest.members paths)
    (h : ∀ p ∈ paths, goodAt fs.member p = true) :
    resolve fs = (headerLine :: paths.filterMap (entryOf fs.member), none) := by
  rw [resolve.eq_def, hroot]
  simp [processMembers_eq_filterMap fs.member paths h]

/-- Witness for C3 on a workspace whose two members declare the same
package name: both entries appear, in declaration order. -/
theorem claim_C3_witness :
    resolve fsDup =
      (headerLine :: List.filterMap (entryOf fsDup.member) ["a", "b"],
        none) ∧
    List.filterMap (entryOf fsDup.member) ["a", "b"] =
      [entryLine "foo" "../substrate/a", entryLine "foo" "../substrate/b"] :=
  ⟨claim_C3 fsDup ["a", "b"] rfl (by decide), by decide⟩

/-- Claim C4: a member whose candidate manifest does not exist on disk is
skipped entirely: the run is identical, in output lines and in error, to
the run of the same filesystem with that member removed from the declared
list — no entry, no diagnostic, and the remaining members are processed. -/
theorem claim_C4 (fs : FS) (pre post : List String) (x : String)
    (hroot : fs.root = RootManifest.members (pre ++ x :: post))
    (hx : fs.member (candidateCargoFile x) = none) :
    resolve fs =
      resolve { root := RootManifest.members (pre ++ post),
                member := fs.member } := by
  rw [resolve.eq_def, resolve.eq_def, hroot]
  simp [processMembers_skip fs.member x post hx pre]

/-- Witness for C4: on the fixture with an absent middle member, the run
equals the run without that member, and it completes without error. -/
theorem claim_C4_witness :
    resolve fsSkip =
      resolve { root := RootManifest.members (["a"] ++ ["b"]),
                member := fsSkip.member } ∧
    (resolve fsSkip).2 = none ∧
    (resolve fsSkip).1 =
      [headerLine, entryLine "foo" "../substrate/a",
        entryLine "bar" "../substrate/b"] :=
  ⟨claim_C4 fsSkip ["a"] ["b"] "gone" rfl (by decide), by decide, by decide⟩

/-- Claim C5: a member whose candidate manifest exists but fails to parse
or lacks `package.name` makes the whole run fail: the run ends with an
uncaught error and the process exit status is non-zero. -/
theorem claim_C5 (fs : FS) (paths : List String) (p : String)
    (m : MemberManifest)
    (hroot : fs.root = RootManifest.members paths) (hp : p ∈ paths)
    (hm : fs.member (candidateCargoFile p) = some m)
    (hbad : m = MemberManifest.malformed ∨ m = MemberManifest.noName) :
    (resolve fs).2.isSome = true ∧ exitCode fs = 1 := by
  have hgood : goodAt fs.member p = false := by
    rcases hbad with hb | hb <;> subst hb <;> simp [goodAt, hm]
  have hne : (processMembers fs.member paths).2 ≠ none := by
    intro hnone
    have := (processMembers_snd_none_iff fs.member paths).1 hnone p hp
    rw [hgood] at this
    cases this
  have h2 : (resolve fs).2 = (processMembers fs.member paths).2 := by
    rw [resolve.eq_def, hroot]
  cases he : (processMembers fs.member paths).2 with
  | none => exact absurd he hne
  | some e =>
    refine ⟨by rw [h2, he]; rfl, ?_⟩
    rw [exitCode, h2, he]

/-- Witness for C5 on the fixture whose single member manifest exists but
fails to parse. -/
theorem claim_C5_witness :
    (resolve fsMalformed).2.isSome = true ∧ exitCode fsMalformed = 1 :=
  claim_C5 fsMalformed ["bad"] "bad" MemberManifest.malformed rfl
    (by decide) (by decide) (Or.inl rfl)

/-- Claim C6: a successful run prints exactly the fixed header line
followed by one line per entry in declaration order, each entry line of the
form `name = \x7b path = "path" \x7d`; with zero members the output is the
header line alone. -/
theorem claim_C6 (fs : FS) (paths : List String)
    (hroot : fs.root = RootManifest.members paths)
    (hok : (resolve fs).2 = none) :
    (resolve fs).1 = headerLine :: paths.filterMap (entryOf fs.member) ∧
      outputText fs =
        String.join
          ((headerLine :: paths.filterMap (entryOf fs.member)).map
            (fun l => l ++ "\n")) ∧
      (∀ l ∈ paths.filterMap (entryOf fs.member), ∃ n c, l = entryLine n c) ∧
      (paths = [] → (resolve fs).1 = [headerLine]) := by
  have h2 : (processMembers fs.member paths).2 = none := by
    have := hok
    rw [resolve.eq_def, hroot] at this
    exact this
  have hgood := (processMembers_snd_none_iff fs.member paths).1 h2
  have hpm := processMembers_eq_filterMap fs.member paths hgood
  have hfst : (resolve fs).1 = headerLine :: paths.filterMap (entryOf fs.member) := by
    rw [resolve.eq_def, hroot]
    simp [hpm]
  refine ⟨hfst, ?_, ?_, ?_⟩
  · rw [outputText, hfst]
  · intro l hl
    rcases List.mem_filterMap.1 hl with ⟨p, _, hval⟩
    revert hval
    unfold entryOf
    cases hfs : fs.member (candidateCargoFile p) with
    | none => intro hval; cases hval
    | some m =>
      cases m with
      | malformed => intro hval; cases hval
      | noName => intro hval; cases hval
      | named n =>
        intro hval
        exact ⟨n, candidatePath p, (Option.some_injective _ hval).symm⟩
  · intro hnil
    subst hnil
    simpa using hfst

/-- Witness for C6 on the zero-member workspace: the output is exactly the
header line. -/
theorem claim_C6_witness :
    (resolve fsEmpty).1 = [headerLine] :=
  (claim_C6 fsEmpty [] rfl rfl).2.2.2 rfl

/-- Claim C7: the run is a deterministic function of the filesystem state
it reads: two runs over filesystems that agree on the root manifest and on
every member manifest produce identical line sequences, identical output
bytes and identical exit status. -/
theorem claim_C7 (fs1 fs2 : FS) (hr : fs1.root = fs2.root)
    (hm : ∀ s, fs1.member s = fs2.member s) :
    resolve fs1 = resolve fs2 ∧ outputText fs1 = outputText fs2 ∧
      exitCode fs1 = exitCode fs2 := by
  have hfs : fs1 = fs2 := by
    cases fs1 with
    | mk r1 m1 =>
      cases fs2 with
      | mk r2 m2 =>
        have h1 : r1 = r2 := hr
        have h2 : m1 = m2 := funext hm
        rw [h1, h2]
  rw [hfs]
  exact ⟨rfl, rfl, rfl⟩

/-- Witness for C7: re-running on the unchanged duplicate-name fixture
reproduces the same bytes. -/
theorem claim_C7_witness :
    resolve fsDup = resolve fsDup ∧ outputText fsDup = outputText fsDup ∧
      exitCode fsDup = exitCode fsDup :=
  claim_C7 fsDup fsDup rfl (fun _ => rfl)

/-- Claim C8: the emitted path field is the unnormalized `os.path.join` of
the hard-coded root directory with the member path string: the member path
survives literally as a suffix of the emitted path, with no collapsing of
`..` segments, and the entry line embeds that joined path verbatim. -/
theorem claim_C8 (fs : FS) (p n : String)
    (h : fs.member (candidateCargoFile p) = some (MemberManifest.named n)) :
    processMembers fs.member [p] =
        ([entryLine n (candidatePath p)], none) ∧
      candidatePath p = osPathJoin substrateRoot p ∧
      ∃ s, candidatePath p = s ++ p := by
  refine ⟨?_, rfl, osPathJoin_suffix substrateRoot p⟩
  simp [processMembers, h]

/-- Witness for C8 on a member path that climbs out of the checkout: the
emitted path is `../substrate/../escape`, with the `..` segment kept, not
collapsed to `../escape`. -/
theorem claim_C8_witness :
    processMembers fsDotDot.member ["../escape"] =
        ([entryLine "esc" (candidatePath "../escape")], none) ∧
      candidatePath "../escape" = "../substrate/../escape" :=
  ⟨(claim_C8 fsDotDot "../escape" "esc" (by decide)).1, by decide⟩

/-- Claim C9: when the root manifest is missing or unreadable, fails to
parse, or lacks `workspace.members`, the run terminates with the
corresponding uncaught error — non-zero exit status — and prints nothing. -/
theorem claim_C9 (fs : FS)
    (h : fs.root = RootManifest.missing ∨ fs.root = RootManifest.malformed ∨
      fs.root = RootManifest.noMembers) :
    (resolve fs).1 = [] ∧ (resolve fs).2.isSome = true ∧ exitCode fs = 1 ∧
      outputText fs = "" ∧
      (fs.root = RootManifest.missing →
        (resolve fs).2 = some RunError.rootMissing) ∧
      (fs.root = RootManifest.malformed →
        (resolve fs).2 = some RunError.rootMalformed) ∧
      (fs.root = RootManifest.noMembers →
        (resolve fs).2 = some RunError.rootNoMembers) := by
  rcases h with h | h | h
  · exact ⟨(by simp [resolve, h]), (by simp [resolve, h]),
      (by simp [exitCode, resolve, h]),
      (by rw [outputText.eq_def, resolve.eq_def, h]; rfl),
      fun _ => (by rw [resolve.eq_def, h]),
      fun h2 => (by rw [h] at h2; cases h2),
      fun h2 => (by rw [h] at h2; cases h2)⟩
  · exact ⟨(by simp [resolve, h]), (by simp [resolve, h]),
      (by simp [exitCode, resolve, h]),
      (by rw [outputText.eq_def, resolve.eq_def, h]; rfl),
      fun h2 => (by rw [h] at h2; cases h2),
      fun _ => (by rw [resolve.eq_def, h]),
      fun h2 => (by rw [h] at h2; cases h2)⟩
  · exact ⟨(by simp [resolve, h]), (by simp [resolve, h]),
      (by simp [exitCode, resolve, h]),
      (by rw [outputText.eq_def, resolve.eq_def, h]; rfl),
      fun h2 => (by rw [h] at h2; cases h2),
      fun h2 => (by rw [h] at h2; cases h2),
      fun _ => (by rw [resolve.eq_def, h])⟩

/-- Witness for C9 on the fixture whose root manifest is absent. -/
theorem claim_C9_witness :
    (resolve fsRootMissing).1 = [] ∧ exitCode fsRootMissing = 1 :=
  ⟨(claim_C9 fsRootMissing (Or.inl rfl)).1,
    (claim_C9 fsRootMissing (Or.inl rfl)).2.2.1⟩

/-- Claim C10: the header is printed right after the root manifest loads,
before any member is examined; a run that fails at member `k` (manifest
present but malformed or lacking `package.name`) has printed exactly the
header line followed by the entries of the valid members declared before
`k` — a prefix of the would-be successful output. -/
theorem claim_C10 (fs : FS) (pre post : List String) (k : String)
    (hroot : fs.root = RootManifest.members (pre ++ k :: post))
    (hpre : ∀ p ∈ pre, goodAt fs.member p = true)
    (hk : goodAt fs.member k = false) :
    resolve fs =
      (headerLine :: pre.filterMap (entryOf fs.member),
        some (RunError.memberError k)) := by
  rw [resolve.eq_def, hroot]
  simp [processMembers_fail_at fs.member k post hk pre hpre]

/-- Witness for C10: failing at the second of three members leaves exactly
the header and the first member's entry. -/
theorem claim_C10_witness :
    resolve fsPrefix =
        (headerLine :: List.filterMap (entryOf fsPrefix.member) ["a"],
          some (RunError.memberError "bad")) ∧
      List.filterMap (entryOf fsPrefix.member) ["a"] =
        [entryLine "foo" "../substrate/a"] :=
  ⟨claim_C10 fsPrefix ["a"] ["c"] "bad" rfl (by decide) (by decide),
    by decide⟩

end PatchGen
